import Mathlib

/-!
Shallow embedding of `src/wled-ping.py` (the wled-ping latency monitor) and proofs
about it.  The program shells out to the `ping` utility, parses its stdout lines,
reduces each 4-probe burst to one sample (`None` = failed, or an integer number of
milliseconds), keeps a newest-first bounded history of samples, maps each sample to
an RGB triple on a logarithmic scale, sends the triples to a WLED device segment,
and sleeps to pace one iteration per `time_per_led` seconds.

Conventions of the embedding:
* subprocess stdout is a list of lines, each a `List Char`;
* a Python exception that no handler catches is an `Except.error` result;
* `math.log10` is modelled by the exact real logarithm `Real.logb 10`
  (the doctests in the source pin the floating-point results on the documented
  inputs to the very values proved here);
* console output is omitted: it does not affect any program state.
-/

/-! ### Line literals used by `ping` (src/wled-ping.py lines 20-24) -/

def timeLit : List Char := "time=".toList

def msLit : List Char := " ms".toList

def timeoutLit : List Char := "Request timeout".toList

def pingLit : List Char := "PING".toList

def dashLit : List Char := "---".toList

def packetsLit : List Char := "4 packets".toList

def roundtripLit : List Char := "round-trip".toList

/-! ### The regular-expression search of line 24: `re.search("time=(\d+).\d+ ms", line)`

The pattern is matched with Python semantics: leftmost starting position first,
and at a given position the captured `\d+` group is greedy with backtracking.
Note that the `.` in the pattern is an unescaped dot matching any character. -/

/-- Numeric value of a decimal digit string, as Python `int()` reads a `\d+` group. -/
def digitsToNat (ds : List Char) : Nat :=
  ds.foldl (fun a c => a * 10 + (c.toNat - 48)) 0

/-- Rest of the pattern after the captured group and the dot: a nonempty digit run
followed by the literal `" ms"`.  Greediness of this second `\d+` is forced: with a
shorter run the next pattern character would have to be a space, but the next input
character would be a digit. -/
def matchTail (cs : List Char) : Bool :=
  let ds := cs.takeWhile Char.isDigit
  !ds.isEmpty && msLit.isPrefixOf (cs.drop ds.length)

/-- Backtracking over the length of the captured digit group: the engine tries the
longest run first, then ever shorter ones; `k` is the group length currently tried,
`cs` the input just after `"time="`. -/
def tryGroup : Nat → List Char → Option Nat
  | 0, _ => none
  | k + 1, cs =>
    match cs.drop (k + 1) with
    | _ :: rest =>
      if matchTail rest then some (digitsToNat (cs.take (k + 1))) else tryGroup k cs
    | [] => tryGroup k cs

/-- One match attempt at the current position. -/
def matchAtPos (l : List Char) : Option Nat :=
  if timeLit.isPrefixOf l then
    let cs := l.drop timeLit.length
    tryGroup (cs.takeWhile Char.isDigit).length cs
  else none

/-- Leftmost search, as `re.search`: attempt a match at every position from the left,
first success wins. -/
def searchTime : List Char → Option Nat
  | [] => none
  | c :: cs =>
    match matchAtPos (c :: cs) with
    | some n => some n
    | none => searchTime cs

/-! ### The `ping` generator (lines 13-27) -/

/-- Classification of one stdout line of the ping subprocess (lines 16-27):
`none` when the line yields nothing (blank lines and the `PING`/`---`/`4 packets`/
`round-trip` header lines are skipped, any other unmatched line is only printed);
`some none` models `yield None` on a `Request timeout` line; `some (some n)` models
`yield int(ms.group(1))` when the regex finds a match. -/
def classifyLine (line : List Char) : Option (Option Nat) :=
  if line.all Char.isWhitespace || pingLit.isPrefixOf line || dashLit.isPrefixOf line
      || packetsLit.isPrefixOf line || roundtripLit.isPrefixOf line then
    none
  else if timeoutLit.isPrefixOf line then
    some none
  else
    match searchTime line with
    | some n => some (some n)
    | none => none

/-- The `ping` generator as a function of the stdout lines of the subprocess:
the list of yielded values, in order.  (The `line == ""` break corresponds to the
end of the line list.) -/
def ping (lines : List (List Char)) : List (Option Nat) :=
  lines.filterMap classifyLine

/-! ### Burst reduction in `main` (lines 84-88) -/

/-- The uncaught Python exceptions relevant to the main loop: `ValueError` raised by
`max()` on an empty sequence (line 88), and the connectivity error raised by
`led.segment` (line 102) when the device is unreachable. -/
inductive PyErr where
  | valueError
  | connectionError
deriving DecidableEq

/-- Python `max` over a list of naturals; on the empty list `max` raises, here `none`. -/
def listMax : List Nat → Option Nat
  | [] => none
  | v :: vs => some (vs.foldl max v)

/-- Reduction of the yielded burst values to one sample (lines 85-88): if any probe
yielded `None` the sample is `None` (failed); otherwise the sample is `max(samples)`,
which raises `ValueError` when the burst yielded nothing at all.  (When no element
is `none`, `samples.reduceOption` is exactly the list of yielded integers.) -/
def reduceBurst (samples : List (Option Nat)) : Except PyErr (Option Nat) :=
  if none ∈ samples then Except.ok none
  else
    match listMax samples.reduceOption with
    | some m => Except.ok (some m)
    | none => Except.error PyErr.valueError

/-! ### History buffer update (lines 90-92) -/

/-- `times.insert(0, sample)` followed by truncation to the first `led_count`
entries when the list became longer than that. -/
def pushHistory (ledCount : Nat) (sample : Option Nat) (times : List (Option Nat)) :
    List (Option Nat) :=
  let t := sample :: times
  if ledCount < t.length then t.take ledCount else t

/-- Repeated pushes; the first element of `samples` is pushed first. -/
def pushAll (ledCount : Nat) (samples : List (Option Nat)) (times : List (Option Nat)) :
    List (Option Nat) :=
  samples.foldl (fun acc s => pushHistory ledCount s acc) times

/-! ### The colour mapper `ms2rgb` (lines 30-55) -/

/-- Python `int()` on a real value: truncation toward zero. -/
noncomputable def pyInt (x : ℝ) : ℤ :=
  if 0 ≤ x then ⌊x⌋ else ⌈x⌉

/-- `ms2rgb(p, max)`: red for a failed sample, green at or below 1 ms, dark red above
the ceiling, otherwise a logarithmic red ramp
`int(math.log10(p) * (255.0 / math.log10(max)))` with full green.  The source gives
the ceiling parameter default 1000; call sites here always pass it explicitly. -/
noncomputable def ms2rgb (p : Option Nat) (mx : Nat) : ℤ × ℤ × ℤ :=
  match p with
  | none => (255, 0, 0)
  | some v =>
    if v ≤ 1 then (0, 255, 0)
    else if mx < v then (127, 0, 0)
    else (pyInt (Real.logb 10 v * (255 / Real.logb 10 mx)), 255, 0)

/-! ### Pacing (lines 76 and 104-108) -/

/-- `time_per_led = (args.timescale * 60) / led_count` (line 76), exact rational
arithmetic in place of Python float division. -/
def timePerLed (timescale ledCount : Nat) : ℚ :=
  (timescale * 60 : ℚ) / ledCount

/-- Seconds slept at the end of one iteration (lines 106-108): `sleep(delay)` runs
only when `delay = time_per_led - dur` is positive; otherwise no sleep happens,
i.e. zero seconds. -/
def sleepFor (tpl dur : ℚ) : ℚ :=
  let delay := tpl - dur
  if 0 < delay then delay else 0

/-! ### One iteration of the main loop (lines 82-108) -/

/-- State produced by one successful loop iteration: the updated history and the list
of RGB triples sent to segment 0 of the device. -/
structure IterResult where
  times : List (Option Nat)
  rgbs : List (ℤ × ℤ × ℤ)

/-- One iteration of the `while True` body (lines 82-108), console output omitted.
`renderOk` tells whether `led.segment` succeeds; the body contains no `try`/`except`,
so any exception — the `ValueError` of an empty `max` or the device connectivity
error — propagates as an `Except.error` and terminates the loop. -/
noncomputable def loopBody (ledCount mx : Nat) (renderOk : Bool)
    (burstLines : List (List Char)) (times : List (Option Nat)) :
    Except PyErr IterResult :=
  match reduceBurst (ping burstLines) with
  | Except.error e => Except.error e
  | Except.ok sample =>
    let times2 := pushHistory ledCount sample times
    let rgbs := times2.map (fun ms => ms2rgb ms mx)
    if renderOk then Except.ok ⟨times2, rgbs⟩ else Except.error PyErr.connectionError

/-! ### Helper lemmas -/

/-- `pushHistory` is exactly prepend-then-truncate, whatever the incoming length. -/
lemma pushHistory_eq_take (L : Nat) (s : Option Nat) (ts : List (Option Nat)) :
    pushHistory L s ts = (s :: ts).take L := by
  show (if L < (s :: ts).length then (s :: ts).take L else s :: ts) = (s :: ts).take L
  split
  · rfl
  · next h => rw [List.take_of_length_le (Nat.le_of_not_lt h)]

lemma take_append_take {α : Type} (a b : List α) (L : Nat) :
    (a ++ b.take L).take L = (a ++ b).take L := by
  rw [List.take_append_eq_append_take, List.take_append_eq_append_take, List.take_take,
    Nat.min_eq_left (Nat.sub_le L a.length)]

/-- Characterisation of repeated pushes: the resulting history is the reversed list of
pushed samples, in front of the old entries, truncated to the capacity. -/
lemma pushAll_eq (L : Nat) (samples : List (Option Nat)) :
    ∀ ts : List (Option Nat), ts.length ≤ L →
      pushAll L samples ts = (samples.reverse ++ ts).take L := by
  induction samples with
  | nil =>
    intro ts h
    simp [pushAll, List.take_of_length_le h]
  | cons s ss ih =>
    intro ts h
    have step : pushAll L (s :: ss) ts = pushAll L ss (pushHistory L s ts) := rfl
    rw [step, pushHistory_eq_take,
      ih ((s :: ts).take L) (by rw [List.length_take]; omega),
      take_append_take, List.reverse_cons, List.append_assoc, List.singleton_append]

lemma foldl_max_mem (v : Nat) (vs : List Nat) : vs.foldl max v ∈ v :: vs := by
  induction vs generalizing v with
  | nil => exact List.mem_singleton.mpr rfl
  | cons w ws ih =>
    have h : ws.foldl max (max v w) ∈ max v w :: ws := ih (max v w)
    rcases List.mem_cons.mp h with h1 | h2
    · rcases max_choice v w with hv | hw
      · rw [List.foldl_cons, h1, hv]; exact List.mem_cons_self _ _
      · rw [List.foldl_cons, h1, hw]; exact List.mem_cons_of_mem _ (List.mem_cons_self _ _)
    · exact List.mem_cons_of_mem _ (List.mem_cons_of_mem _ h2)

lemma le_foldl_max (v : Nat) (vs : List Nat) :
    v ≤ vs.foldl max v ∧ ∀ u ∈ vs, u ≤ vs.foldl max v := by
  induction vs generalizing v with
  | nil => exact ⟨Nat.le_refl v, by intro u hu; cases hu⟩
  | cons w ws ih =>
    obtain ⟨h1, h2⟩ := ih (max v w)
    refine ⟨le_trans (le_max_left v w) h1, ?_⟩
    intro u hu
    rcases List.mem_cons.mp hu with rfl | hu
    · exact le_trans (le_max_right v u) h1
    · exact h2 u hu

/-! ### Claim theorems -/

/-- Claim C1 (code bug): the claim says a probe burst that yields zero usable latency
values and no timeout signal (empty output, or every line unparseable/ignored)
produces a "failed" sample and never raises.  The code instead computes
`max(samples)` on the empty list, which raises an uncaught `ValueError` and aborts
the loop.  This theorem evaluates the code at two such failing inputs: an empty
output, and an output of one header line plus one unparseable line. -/
theorem C1_empty_burst_raises :
    ping [] = [] ∧
    reduceBurst (ping []) = Except.error PyErr.valueError ∧
    ping ["PING 8.8.8.8 (8.8.8.8): 56 data bytes".toList,
      "gibberish the parser cannot read".toList] = [] ∧
    reduceBurst (ping ["PING 8.8.8.8 (8.8.8.8): 56 data bytes".toList,
      "gibberish the parser cannot read".toList]) = Except.error PyErr.valueError :=
  ⟨rfl, rfl, by decide, rfl⟩

/-- Claim C5: for every burst with at least one parsed latency value and no timeout
signal, the reduced sample is the maximum of the parsed values (an element of the
parsed values that bounds them all); any `Request timeout` yield (`none` in the
list) anywhere in the burst forces the failed sample `none`. -/
theorem C5_burst_reduction (samples : List (Option Nat)) :
    (none ∈ samples → reduceBurst samples = Except.ok none) ∧
    (none ∉ samples → samples ≠ [] →
      ∃ m, reduceBurst samples = Except.ok (some m) ∧
        m ∈ samples.reduceOption ∧ ∀ v ∈ samples.reduceOption, v ≤ m) := by
  constructor
  · intro h
    unfold reduceBurst
    rw [if_pos h]
  · intro hnone hne
    obtain ⟨v, vs, hv⟩ : ∃ v vs, samples.reduceOption = v :: vs := by
      cases samples with
      | nil => exact absurd rfl hne
      | cons a as =>
        cases a with
        | none => exact absurd (List.mem_cons_self _ _) hnone
        | some v => exact ⟨v, as.reduceOption, List.reduceOption_cons_of_some v as⟩
    refine ⟨vs.foldl max v, ?_, ?_, ?_⟩
    · unfold reduceBurst
      rw [if_neg hnone, hv]
      rfl
    · rw [hv]
      exact foldl_max_mem v vs
    · rw [hv]
      intro u hu
      rcases List.mem_cons.mp hu with rfl | hu
      · exact (le_foldl_max u vs).1
      · exact (le_foldl_max v vs).2 u hu

/-- Witness for C5 at concrete bursts: a burst of values 3, 7, 5 reduces to the
maximum 7, and a burst containing a timeout yield reduces to the failed sample. -/
theorem C5_burst_reduction_witness :
    reduceBurst [some 3, some 7, some 5] = Except.ok (some 7) ∧
    reduceBurst [some 3, none, some 5] = Except.ok none := by
  constructor
  · obtain ⟨m, hm, hmem, hub⟩ :=
      (C5_burst_reduction [some 3, some 7, some 5]).2 (by decide) (by decide)
    have hmem3 : m = 3 ∨ m = 7 ∨ m = 5 := by simpa using hmem
    have h7 : m = 7 :=
      le_antisymm (by rcases hmem3 with rfl | rfl | rfl <;> omega) (hub 7 (by decide))
    rw [h7] at hm
    exact hm
  · exact (C5_burst_reduction [some 3, none, some 5]).1 (by decide)

/-- Claim C6: the history push prepends at index 0 and truncates to the first
`ledCount` entries.  Pushing `N` samples into an initially empty buffer leaves the
reversed push sequence truncated to capacity (newest-to-oldest order), of length
`min N ledCount`, with index 0 the most recently pushed sample; and no single push
ever produces a history longer than `ledCount`. -/
theorem C6_history_buffer (L : Nat) (samples : List (Option Nat)) :
    pushAll L samples [] = samples.reverse.take L ∧
    (pushAll L samples []).length = min samples.length L ∧
    (∀ s ts, (pushHistory L s ts).length ≤ L) ∧
    (samples ≠ [] → 0 < L → (pushAll L samples []).head? = samples.getLast?) := by
  have base : pushAll L samples [] = samples.reverse.take L := by
    rw [pushAll_eq L samples [] (Nat.zero_le L), List.append_nil]
  refine ⟨base, ?_, ?_, ?_⟩
  · rw [base, List.length_take, List.length_reverse, Nat.min_comm]
  · intro s ts
    rw [pushHistory_eq_take, List.length_take]
    exact Nat.min_le_left _ _
  · intro hne hL
    rw [base, ← List.head?_reverse]
    cases hrev : samples.reverse with
    | nil => exact absurd (by simpa using congrArg List.reverse hrev) hne
    | cons x xs =>
      obtain ⟨k, rfl⟩ := Nat.exists_eq_add_of_lt hL
      rfl

/-- Witness for C6 at a concrete run: pushing three samples into an empty buffer of
capacity 2 keeps the newest two, newest first. -/
theorem C6_history_buffer_witness :
    pushAll 2 [some 1, none, some 3] [] = [some 3, none] ∧
    (pushAll 2 [some 1, none, some 3] []).length = min 3 2 ∧
    (pushAll 2 [some 1, none, some 3] []).head? = [some 1, none, some 3].getLast? := by
  obtain ⟨h1, h2, _, h4⟩ := C6_history_buffer 2 [some 1, none, some 3]
  exact ⟨by rw [h1]; decide, h2, h4 (by decide) (by decide)⟩

/-- Claim C7: `time_per_led` is `(timescale * 60) / ledCount`, and the slept duration
each iteration is `max 0 (timePerLed - dur)`: zero (never negative) whenever the
measured work duration `dur` reaches or exceeds the budget, and nonnegative always. -/
theorem C7_pacing (timescale ledCount : Nat) (dur : ℚ) :
    timePerLed timescale ledCount = (timescale * 60 : ℚ) / ledCount ∧
    sleepFor (timePerLed timescale ledCount) dur
      = max 0 (timePerLed timescale ledCount - dur) ∧
    (timePerLed timescale ledCount ≤ dur →
      sleepFor (timePerLed timescale ledCount) dur = 0) ∧
    0 ≤ sleepFor (timePerLed timescale ledCount) dur := by
  have hs : ∀ t d : ℚ, sleepFor t d = max 0 (t - d) := by
    intro t d
    show (if 0 < t - d then t - d else 0) = max 0 (t - d)
    rcases lt_or_le 0 (t - d) with h | h
    · rw [if_pos h, max_eq_right h.le]
    · rw [if_neg (not_lt.mpr h), max_eq_left h]
  refine ⟨rfl, hs _ _, ?_, ?_⟩
  · intro h
    rw [hs, max_eq_left (by linarith)]
  · rw [hs]
    exact le_max_left 0 _

/-- Witness for C7: with a 60-minute window over 30 LEDs the budget is 120 seconds,
and an iteration that took 150 seconds sleeps 0. -/
theorem C7_pacing_witness :
    sleepFor (timePerLed 60 30) 150 = 0 :=
  (C7_pacing 60 30 150).2.2.1 (by norm_num [timePerLed])

/-- Claim C2 counterexample: the claim says a device connectivity failure during the
render step is caught locally and the loop continues.  The loop body contains no
`try`/`except`, so at this concrete iteration — a normal burst, device unreachable —
the connectivity error propagates out of the body (an `Except.error` result, i.e.
the loop terminates) instead of being caught. -/
theorem C2_uncaught_render_error_counterexample :
    loopBody 30 2000 false
      ["64 bytes from 8.8.8.8: icmp_seq=0 ttl=117 time=23.456 ms".toList] []
      = Except.error PyErr.connectionError := rfl

/-- Claim C2 amended: a device connectivity failure raised by `led.segment` during
the render step is not caught anywhere: whenever the burst reduction itself
succeeded, a failing render makes the whole loop body raise the connectivity error,
terminating the loop rather than continuing. -/
theorem C2_render_failure_uncaught (ledCount mx : Nat) (burstLines : List (List Char))
    (times : List (Option Nat)) (sample : Option Nat)
    (h : reduceBurst (ping burstLines) = Except.ok sample) :
    loopBody ledCount mx false burstLines times = Except.error PyErr.connectionError := by
  unfold loopBody
  rw [h]
  rfl

/-- Witness for C2's amended theorem at a concrete iteration: an all-timeout burst
reduces fine (failed sample), and the failing render still aborts the body. -/
theorem C2_render_failure_uncaught_witness :
    loopBody 5 1000 false ["Request timeout for icmp_seq 0".toList] []
      = Except.error PyErr.connectionError :=
  C2_render_failure_uncaught 5 1000 ["Request timeout for icmp_seq 0".toList] [] none rfl

/-- Claim C3 counterexample: the claim says a line containing `100% packet loss` is
recognised as a total-loss signal forcing the sample to "failed".  The real summary
line is ignored by the `4 packets` header filter, yields nothing, and a burst whose
output is only that line makes the reduction raise `ValueError` — the sample is not
forced to "failed". -/
theorem C3_loss_line_counterexample :
    classifyLine ("4 packets transmitted, 0 received, 100% packet loss, time 3053ms".toList)
      = none ∧
    ping ["4 packets transmitted, 0 received, 100% packet loss, time 3053ms".toList] = [] ∧
    reduceBurst
      (ping ["4 packets transmitted, 0 received, 100% packet loss, time 3053ms".toList])
      ≠ Except.ok none ∧
    reduceBurst
      (ping ["4 packets transmitted, 0 received, 100% packet loss, time 3053ms".toList])
      = Except.error PyErr.valueError := by
  have he : reduceBurst
      (ping ["4 packets transmitted, 0 received, 100% packet loss, time 3053ms".toList])
      = Except.error PyErr.valueError := rfl
  refine ⟨by decide, by decide, ?_, he⟩
  rw [he]
  exact fun hc => Except.noConfusion hc

/-- Claim C3 amended: there is no `100% packet loss` recognition at all.  The packet
loss summary lines (they start with `4 packets`, the statistics banner with `---`)
are skipped exactly like the other header lines and contribute no yield; a burst
whose only output is such a summary ends with zero yields, so its reduction raises
`ValueError` instead of producing the failed sample. -/
theorem C3_loss_summary_ignored :
    (∀ l : List Char,
      packetsLit.isPrefixOf l = true ∨ dashLit.isPrefixOf l = true →
      classifyLine l = none) ∧
    reduceBurst
      (ping ["4 packets transmitted, 0 packets received, 100.0% packet loss".toList])
      = Except.error PyErr.valueError := by
  refine ⟨?_, rfl⟩
  intro l hl
  rcases hl with h | h <;> simp [classifyLine, h]

/-- Witness for C3's amended theorem: the macOS-style loss summary and the
statistics banner are both ignored. -/
theorem C3_loss_summary_ignored_witness :
    classifyLine ("4 packets transmitted, 0 packets received, 100.0% packet loss".toList)
      = none ∧
    classifyLine ("--- 8.8.8.8 ping statistics ---".toList) = none :=
  ⟨C3_loss_summary_ignored.1 _ (Or.inl (by decide)),
   C3_loss_summary_ignored.1 _ (Or.inr (by decide))⟩

/-- Claim C10: each iteration sends to the device segment exactly one RGB triple per
history entry — the rendered list has the history's length, `min (N, ledCount)` at
the `N`-th iteration: strictly shorter than the strip while fewer than `ledCount`
samples exist, and exactly `ledCount` from then on. -/
theorem C10_render_list_length (L mx : Nat) (earlier : List (Option Nat))
    (burstLines : List (List Char)) (r : IterResult)
    (h : loopBody L mx true burstLines (pushAll L earlier []) = Except.ok r) :
    r.rgbs.length = r.times.length ∧
    r.times.length = min (earlier.length + 1) L ∧
    (earlier.length + 1 < L → r.rgbs.length < L) ∧
    (L ≤ earlier.length + 1 → r.rgbs.length = L) := by
  unfold loopBody at h
  cases hr : reduceBurst (ping burstLines) with
  | error e => rw [hr] at h; cases h
  | ok sample =>
    rw [hr] at h
    simp only [if_true] at h
    obtain rfl : (⟨pushHistory L sample (pushAll L earlier []),
        (pushHistory L sample (pushAll L earlier [])).map (fun ms => ms2rgb ms mx)⟩ :
        IterResult) = r := by
      cases h
      rfl
    have hprev : (pushAll L earlier []).length = min earlier.length L := by
      rw [pushAll_eq L earlier [] (Nat.zero_le L), List.append_nil,
        List.length_take, List.length_reverse, Nat.min_comm]
    have htimes : (pushHistory L sample (pushAll L earlier [])).length
        = min (earlier.length + 1) L := by
      rw [pushHistory_eq_take, List.length_take, List.length_cons, hprev]
      omega
    have hrgbs : ((pushHistory L sample (pushAll L earlier [])).map
        (fun ms => ms2rgb ms mx)).length
        = (pushHistory L sample (pushAll L earlier [])).length :=
      List.length_map _ _
    refine ⟨hrgbs, htimes, ?_, ?_⟩
    · intro hlt
      rw [hrgbs, htimes]
      omega
    · intro hge
      rw [hrgbs, htimes]
      omega

/-- Witness for C10 at a concrete first iteration on a 1-LED strip: one history
entry, one rendered triple. -/
theorem C10_render_list_length_witness :
    [ms2rgb (some 5) 500].length = [(some 5 : Option Nat)].length ∧
    [(some 5 : Option Nat)].length = min (List.length ([] : List (Option Nat)) + 1) 1 ∧
    (List.length ([] : List (Option Nat)) + 1 < 1 → [ms2rgb (some 5) 500].length < 1) ∧
    (1 ≤ List.length ([] : List (Option Nat)) + 1 → [ms2rgb (some 5) 500].length = 1) :=
  C10_render_list_length 1 500 []
    ["64 bytes from 1.1.1.1: icmp_seq=0 ttl=55 time=5.999 ms".toList]
    ⟨[some 5], [ms2rgb (some 5) 500]⟩ rfl

/-! ### Lemmas about the regex search -/

lemma takeWhile_digits_append (ds : List Char) (c : Char) (r : List Char)
    (hds : ∀ d ∈ ds, d.isDigit = true) (hc : c.isDigit = false) :
    (ds ++ c :: r).takeWhile Char.isDigit = ds := by
  induction ds with
  | nil => simp [List.takeWhile_cons, hc]
  | cons d ds ih =>
    rw [List.cons_append, List.takeWhile_cons, hds d (List.mem_cons_self _ _)]
    simp only [ite_true]
    rw [ih (fun x hx => hds x (List.mem_cons_of_mem _ hx))]

lemma isPrefixOf_self_append (xs t : List Char) : xs.isPrefixOf (xs ++ t) = true := by
  induction xs with
  | nil => simp
  | cons c cs ih => simp [List.isPrefixOf, ih]

/-- The tail of the pattern matches right after the dot consumed the decimal point:
the fractional digits, then the literal ms-suffix, then anything. -/
lemma matchTail_of_digits (fs suf : List Char) (hfs : fs ≠ [])
    (hfsd : ∀ c ∈ fs, c.isDigit = true) :
    matchTail (fs ++ msLit ++ suf) = true := by
  have e1 : fs ++ msLit ++ suf = fs ++ ' ' :: ('m' :: 's' :: suf) := by
    rw [List.append_assoc]
    rfl
  have h1 : (fs ++ msLit ++ suf).takeWhile Char.isDigit = fs := by
    rw [e1]
    exact takeWhile_digits_append fs ' ' _ hfsd (by decide)
  show (!((fs ++ msLit ++ suf).takeWhile Char.isDigit).isEmpty
      && msLit.isPrefixOf ((fs ++ msLit ++ suf).drop
        ((fs ++ msLit ++ suf).takeWhile Char.isDigit).length)) = true
  rw [h1, List.append_assoc, List.drop_left, isPrefixOf_self_append]
  cases fs with
  | nil => exact absurd rfl hfs
  | cons a as => rfl

/-- The greedy group succeeds at the full digit run: with the whole run captured, the
dot consumes the decimal point and the tail matches, so backtracking stops there. -/
lemma tryGroup_full (ds rest : List Char) (hds : ds ≠ []) (h : matchTail rest = true) :
    tryGroup ds.length (ds ++ '.' :: rest) = some (digitsToNat ds) := by
  obtain ⟨k, hk⟩ : ∃ k, ds.length = k + 1 := by
    cases ds with
    | nil => exact absurd rfl hds
    | cons a as => exact ⟨as.length, rfl⟩
  have hdrop : (ds ++ '.' :: rest).drop (k + 1) = '.' :: rest := by
    rw [← hk]
    exact List.drop_left ds _
  have htake : (ds ++ '.' :: rest).take (k + 1) = ds := by
    rw [← hk]
    exact List.take_left ds _
  rw [hk]
  unfold tryGroup
  rw [hdrop]
  simp only [h, ite_true, htake]

lemma matchAtPos_nil : matchAtPos [] = none := rfl

lemma searchTime_of_matchAtPos (l : List Char) (n : Nat) (h : matchAtPos l = some n) :
    searchTime l = some n := by
  cases l with
  | nil => rw [matchAtPos_nil] at h; cases h
  | cons c cs =>
    unfold searchTime
    rw [h]

lemma searchTime_cons_of_none (c : Char) (cs : List Char)
    (h : matchAtPos (c :: cs) = none) : searchTime (c :: cs) = searchTime cs := by
  have e : searchTime (c :: cs)
      = match matchAtPos (c :: cs) with
        | some n => some n
        | none => searchTime cs := rfl
  rw [e, h]

/-- Positions where `"time="` does not occur contribute no match, so the search skips
an occurrence-free leading segment. -/
lemma searchTime_append_of_no_time (pre rest : List Char)
    (h : ∀ i, i < pre.length → timeLit.isPrefixOf ((pre ++ rest).drop i) = false) :
    searchTime (pre ++ rest) = searchTime rest := by
  induction pre with
  | nil => rfl
  | cons c pre ih =>
    have h0 : timeLit.isPrefixOf (c :: (pre ++ rest)) = false := by
      simpa using h 0 (Nat.succ_pos _)
    have hma : matchAtPos (c :: (pre ++ rest)) = none := by
      unfold matchAtPos
      rw [h0]
      rfl
    rw [List.cons_append, searchTime_cons_of_none _ _ hma]
    exact ih (fun i hi => by simpa using h (i + 1) (Nat.succ_lt_succ hi))

/-- The match attempt right at `"time="` extracts the digit group before the decimal
point. -/
lemma matchAtPos_time (ds fs suf : List Char) (hds : ds ≠ [])
    (hdsd : ∀ c ∈ ds, c.isDigit = true) (hfs : fs ≠ [])
    (hfsd : ∀ c ∈ fs, c.isDigit = true) :
    matchAtPos (timeLit ++ (ds ++ '.' :: (fs ++ msLit ++ suf)))
      = some (digitsToNat ds) := by
  have hpre := isPrefixOf_self_append timeLit (ds ++ '.' :: (fs ++ msLit ++ suf))
  have hdrop : (timeLit ++ (ds ++ '.' :: (fs ++ msLit ++ suf))).drop timeLit.length
      = ds ++ '.' :: (fs ++ msLit ++ suf) := List.drop_left timeLit _
  have htw : ((ds ++ '.' :: (fs ++ msLit ++ suf))).takeWhile Char.isDigit = ds :=
    takeWhile_digits_append ds '.' _ hdsd (by decide)
  show (if timeLit.isPrefixOf (timeLit ++ (ds ++ '.' :: (fs ++ msLit ++ suf))) = true
      then
        tryGroup
          (((timeLit ++ (ds ++ '.' :: (fs ++ msLit ++ suf))).drop
            timeLit.length).takeWhile Char.isDigit).length
          ((timeLit ++ (ds ++ '.' :: (fs ++ msLit ++ suf))).drop timeLit.length)
      else none) = some (digitsToNat ds)
  rw [hpre, if_pos rfl, hdrop, htw]
  exact tryGroup_full ds _ hds (matchTail_of_digits fs suf hfs hfsd)

/-- Claim C9: on every reply line of the form `time=<digits>.<digits> ms` — an
arbitrary prefix before the first `time=` occurrence, an arbitrary suffix after the
ms-unit — the extracted latency is exactly the digit group before the decimal point,
read as a decimal integer; the fractional digits are discarded no matter what they
are (truncation, never rounding). -/
theorem C9_time_truncation (pre ds fs suf : List Char) (hds : ds ≠ [])
    (hdsd : ∀ c ∈ ds, c.isDigit = true) (hfs : fs ≠ [])
    (hfsd : ∀ c ∈ fs, c.isDigit = true)
    (hpre : ∀ i, i < pre.length →
      timeLit.isPrefixOf
        ((pre ++ (timeLit ++ (ds ++ '.' :: (fs ++ msLit ++ suf)))).drop i) = false) :
    searchTime (pre ++ (timeLit ++ (ds ++ '.' :: (fs ++ msLit ++ suf))))
      = some (digitsToNat ds) := by
  rw [searchTime_append_of_no_time pre _ hpre]
  exact searchTime_of_matchAtPos _ _ (matchAtPos_time ds fs suf hds hdsd hfs hfsd)

/-- Witness for C9: `time=23.456 ms` and `time=23.999 ms` both extract 23 — the
fraction is dropped, even when it would round up. -/
theorem C9_time_truncation_witness :
    searchTime ("time=23.456 ms".toList) = some 23 ∧
    searchTime ("time=23.999 ms".toList) = some 23 :=
  ⟨C9_time_truncation [] ['2', '3'] ['4', '5', '6'] [] (by decide) (by decide)
      (by decide) (by decide) (fun i hi => absurd hi (Nat.not_lt_zero i)),
   C9_time_truncation [] ['2', '3'] ['9', '9', '9'] [] (by decide) (by decide)
      (by decide) (by decide) (fun i hi => absurd hi (Nat.not_lt_zero i))⟩

/-! ### Lemmas about the colour mapper -/

lemma logb_ten_pow (k : ℕ) : Real.logb 10 ((10 : ℝ) ^ k) = k := by
  rw [Real.logb_pow, Real.logb_self_eq_one (by norm_num)]
  ring

lemma pyInt_intCast (n : ℤ) : pyInt (n : ℝ) = n := by
  unfold pyInt
  split
  · exact Int.floor_intCast n
  · exact Int.ceil_intCast n

/-- In the ramp region the mapper computes the logarithmic red formula. -/
lemma ms2rgb_formula (v mx : ℕ) (h1 : ¬ v ≤ 1) (h2 : ¬ mx < v) :
    ms2rgb (some v) mx
      = (pyInt (Real.logb 10 v * (255 / Real.logb 10 mx)), 255, 0) := by
  simp only [ms2rgb, if_neg h1, if_neg h2]

lemma ms2rgb_ten : ms2rgb (some 10) 1000 = (85, 255, 0) := by
  rw [ms2rgb_formula 10 1000 (by norm_num) (by norm_num)]
  have harg : Real.logb 10 ((10 : ℕ) : ℝ) * (255 / Real.logb 10 ((1000 : ℕ) : ℝ))
      = ((85 : ℤ) : ℝ) := by
    have h10 : ((10 : ℕ) : ℝ) = (10 : ℝ) ^ (1 : ℕ) := by norm_num
    have h1000 : ((1000 : ℕ) : ℝ) = (10 : ℝ) ^ (3 : ℕ) := by norm_num
    rw [h10, h1000, logb_ten_pow, logb_ten_pow]
    norm_num
  rw [harg, pyInt_intCast]

lemma ms2rgb_hundred : ms2rgb (some 100) 1000 = (170, 255, 0) := by
  rw [ms2rgb_formula 100 1000 (by norm_num) (by norm_num)]
  have harg : Real.logb 10 ((100 : ℕ) : ℝ) * (255 / Real.logb 10 ((1000 : ℕ) : ℝ))
      = ((170 : ℤ) : ℝ) := by
    have h100 : ((100 : ℕ) : ℝ) = (10 : ℝ) ^ (2 : ℕ) := by norm_num
    have h1000 : ((1000 : ℕ) : ℝ) = (10 : ℝ) ^ (3 : ℕ) := by norm_num
    rw [h100, h1000, logb_ten_pow, logb_ten_pow]
    norm_num
  rw [harg, pyInt_intCast]

lemma ms2rgb_thousand : ms2rgb (some 1000) 1000 = (255, 255, 0) := by
  rw [ms2rgb_formula 1000 1000 (by norm_num) (by norm_num)]
  have harg : Real.logb 10 ((1000 : ℕ) : ℝ) * (255 / Real.logb 10 ((1000 : ℕ) : ℝ))
      = ((255 : ℤ) : ℝ) := by
    have h1000 : ((1000 : ℕ) : ℝ) = (10 : ℝ) ^ (3 : ℕ) := by norm_num
    rw [h1000, logb_ten_pow]
    norm_num
  rw [harg, pyInt_intCast]

/-- Claim C4: the concrete colour values — failed is red for every ceiling, 0 and
1 ms are green for every ceiling, and with ceiling 1000 the documented ramp values
and the beyond-ceiling dark red hold. -/
theorem C4_color_mapper_values :
    (∀ mx : ℕ, ms2rgb none mx = (255, 0, 0)) ∧
    (∀ mx : ℕ, ms2rgb (some 0) mx = (0, 255, 0) ∧ ms2rgb (some 1) mx = (0, 255, 0)) ∧
    ms2rgb (some 10) 1000 = (85, 255, 0) ∧
    ms2rgb (some 100) 1000 = (170, 255, 0) ∧
    ms2rgb (some 1000) 1000 = (255, 255, 0) ∧
    ms2rgb (some 10000) 1000 = (127, 0, 0) := by
  refine ⟨fun mx => rfl, fun mx => ⟨?_, ?_⟩, ms2rgb_ten, ms2rgb_hundred,
    ms2rgb_thousand, ?_⟩
  · simp [ms2rgb]
  · simp [ms2rgb]
  · norm_num [ms2rgb]

/-- Claim C8: within the ramp region `2 ≤ v1 ≤ v2 ≤ mx` the red channel is
non-decreasing in the sample value, and with ceiling 1000 it is strictly increasing
across 10, 100, 1000. -/
theorem C8_red_channel_monotone :
    (∀ mx v1 v2 : ℕ, 2 ≤ v1 → v1 ≤ v2 → v2 ≤ mx →
      (ms2rgb (some v1) mx).1 ≤ (ms2rgb (some v2) mx).1) ∧
    (ms2rgb (some 10) 1000).1 < (ms2rgb (some 100) 1000).1 ∧
    (ms2rgb (some 100) 1000).1 < (ms2rgb (some 1000) 1000).1 := by
  refine ⟨?_, ?_, ?_⟩
  · intro mx v1 v2 h2 h12 h2mx
    rw [ms2rgb_formula v1 mx (by omega) (by omega),
      ms2rgb_formula v2 mx (by omega) (by omega)]
    show pyInt (Real.logb 10 v1 * (255 / Real.logb 10 mx))
        ≤ pyInt (Real.logb 10 v2 * (255 / Real.logb 10 mx))
    have hmx1 : (1 : ℝ) < (mx : ℝ) := by exact_mod_cast (by omega : 1 < mx)
    have hc : 0 < 255 / Real.logb 10 (mx : ℝ) :=
      div_pos (by norm_num) (Real.logb_pos (by norm_num) hmx1)
    have hv1pos : (0 : ℝ) < (v1 : ℝ) := by exact_mod_cast (by omega : 0 < v1)
    have hlog : Real.logb 10 (v1 : ℝ) ≤ Real.logb 10 (v2 : ℝ) :=
      Real.logb_le_logb_of_le (by norm_num) hv1pos (by exact_mod_cast h12)
    have hx1 : 0 ≤ Real.logb 10 (v1 : ℝ) :=
      Real.logb_nonneg (by norm_num) (by exact_mod_cast (by omega : 1 ≤ v1))
    have hle : Real.logb 10 (v1 : ℝ) * (255 / Real.logb 10 (mx : ℝ))
        ≤ Real.logb 10 (v2 : ℝ) * (255 / Real.logb 10 (mx : ℝ)) :=
      mul_le_mul_of_nonneg_right hlog hc.le
    have h01 : 0 ≤ Real.logb 10 (v1 : ℝ) * (255 / Real.logb 10 (mx : ℝ)) :=
      mul_nonneg hx1 hc.le
    unfold pyInt
    rw [if_pos h01, if_pos (le_trans h01 hle)]
    exact Int.floor_mono hle
  · rw [ms2rgb_ten, ms2rgb_hundred]
    norm_num
  · rw [ms2rgb_hundred, ms2rgb_thousand]
    norm_num

/-- Witness for C8 at concrete ramp values 10 ≤ 100 under ceiling 1000. -/
theorem C8_red_channel_monotone_witness :
    (ms2rgb (some 10) 1000).1 ≤ (ms2rgb (some 100) 1000).1 :=
  C8_red_channel_monotone.1 1000 10 100 (by norm_num) (by norm_num) (by norm_num)
